import Mathlib

/-!
# Verification of the GST reconciliation engine

Shallow embedding of `src/utils/reconciliationUtils.ts` (the reconciliation
matching engine of the gst-reconcile-wizard repository) together with the
one engine-relevant fragment of the UI layer
(`src/components/ReconciliationOptions.tsx`).

Modelling conventions:
* A JS row object is modelled as an association list `Record` from field
  name to `Value`; JS object key access is first-match lookup (JS object
  keys are unique, so first-match agrees with JS access).
* JS numbers are modelled as rationals `ℚ`; the numeric comparisons of the
  engine (`Math.abs`, `*`, `>`) are exact on the values exercised here.
* A missing field (`undefined` in JS) is `Option.none`.
* The Fuse.js fuzzy-search library is **not** part of this repository's
  sources; the engine is therefore parametrised over the search function
  (`FuseSearch`), and a concrete instance `modelFuseSearch` is modelled
  from the spec (§4.2 FuzzyIndex) for concrete runs.
-/

/- Batteries marks the `Rat` arithmetic `@[irreducible]`; restore
unfolding locally so that concrete runs of the engine evaluate by
`decide`. -/
section RatReducible
attribute [local semireducible] Rat.inv Rat.mul Rat.add Rat.sub Rat.ofScientific

/-- A scalar cell value of a parsed spreadsheet row: a string or a number
(JS numbers modelled as `ℚ`). -/
inductive Value where
  | str (s : String)
  | num (q : ℚ)
deriving DecidableEq, Repr

/-- A row object: association list from field name to value. -/
abbrev Record := List (String × Value)

/-- JS object property access `entry[field]`: first entry with the given
key, `none` when absent (`undefined`). -/
def lookupField (r : Record) (f : String) : Option Value :=
  (r.find? (fun p => p.1 == f)).map (fun p => p.2)

/-- Model of JS number-to-string conversion. Integers print as decimal
integers, as in JS; non-integers print as `num/den` (the exact decimal
rendering of JS floats is out of scope — only injectivity-on-use matters). -/
def numToStr (q : ℚ) : String :=
  if q.den = 1 then toString q.num else toString q.num ++ "/" ++ toString q.den

/-- Model of JS `String(value)` on a possibly-missing value:
`String(undefined) = "undefined"`. -/
def valueToStr : Option Value → String
  | none => "undefined"
  | some (.str s) => s
  | some (.num q) => numToStr q

/-- Line 220 of the engine: `gstr2bEntry[keyField]?.toString() || ''` —
empty string when the field is absent (and for the empty string itself,
which is falsy in JS). -/
def patternValue : Option Value → String
  | none => ""
  | some (.str s) => s
  | some (.num q) => numToStr q

/-- Options structure `ReconciliationOptions` from `reconciliationUtils.ts`. -/
structure ReconciliationOptions where
  matchingThreshold : ℚ
  keyFields : List String
  mappedFields : List (String × String)
deriving DecidableEq, Repr

/-- One element of `common[..].mismatches`. -/
structure FieldMismatch where
  field : String
  gstr2bValue : Option Value
  purchaseRegisterValue : Option Value
deriving DecidableEq, Repr

/-- One element of `MatchResult.common`. -/
structure CommonEntry where
  gstr2b : Record
  purchaseRegister : Record
  mismatches : List FieldMismatch
deriving DecidableEq, Repr

/-- Result structure `MatchResult` from `reconciliationUtils.ts`. -/
structure MatchResult where
  common : List CommonEntry
  moreInGstr2b : List Record
  lessInGstr2b : List Record
deriving DecidableEq, Repr

/-- The type of the fuzzy search: given the indexed dataset, the key list
and threshold passed in `fuseOptions`, and a search pattern (key field →
stringified value), return scored hits `(index into dataset, score)`,
best first. Abstracting over this models `new Fuse(...)` / `fuse.search`. -/
abbrev FuseSearch :=
  List Record → List String → ℚ → List (String × String) → List (Nat × ℚ)

/-- Line 210 of the engine: `keys: keyFields.map(field => field)` — note
this is the identity on the *source-side* key-field names; it does not
translate them through `mappedFields`. -/
def fuseKeysOf (keyFields : List String) : List String :=
  keyFields.map (fun field => field)

/-- Line 209 of the engine: `threshold: 1 - matchingThreshold / 100`. -/
def fuseThreshold (matchingThreshold : ℚ) : ℚ :=
  1 - matchingThreshold / 100

/-- Lines 218–221: the search pattern built from the source entry's
key-field values. -/
def searchPatternFor (keyFields : List String) (entry : Record) : List (String × String) :=
  keyFields.map (fun keyField => (keyField, patternValue (lookupField entry keyField)))

/-- The result list of `fuse.search(searchPattern)` for one source entry. -/
def entryResults (search : FuseSearch) (tgt : List Record)
    (opts : ReconciliationOptions) (e : Record) : List (Nat × ℚ) :=
  search tgt (fuseKeysOf opts.keyFields) (fuseThreshold opts.matchingThreshold)
    (searchPatternFor opts.keyFields e)

/-- Line 226: `results.length > 0 && results[0].score !== undefined &&
results[0].score <= (1 - matchingThreshold / 100)` (with `includeScore:
true` the score is always present, so it is always defined here). -/
def entryMatches (search : FuseSearch) (tgt : List Record)
    (opts : ReconciliationOptions) (e : Record) : Bool :=
  match entryResults search tgt opts e with
  | [] => false
  | (_, score) :: _ => decide (score ≤ fuseThreshold opts.matchingThreshold)

/-- Line 227: `results[0].item` (the empty record as the out-of-bounds
default never arises for a search returning valid indices). -/
def bestMatchOf (search : FuseSearch) (tgt : List Record)
    (opts : ReconciliationOptions) (e : Record) : Record :=
  match entryResults search tgt opts e with
  | [] => []
  | (idx, _) :: _ => tgt.getD idx []

/-- Helper for JS `Array.prototype.indexOf`: index of the first equal
element. -/
def idxOfAux (r : Record) : List Record → Option Nat
  | [] => none
  | x :: rest => if x = r then some 0 else (idxOfAux r rest).map (fun k => k + 1)

/-- Line 228: `purchaseRegisterData.indexOf(bestMatch)` — first index of
the record, `-1` when absent. (JS compares by reference; parsed rows are
distinct objects, so on duplicate-free data this structural model agrees.) -/
def indexOfRecord (l : List Record) (r : Record) : Int :=
  match idxOfAux r l with
  | some k => (k : Int)
  | none => -1

/-- The tolerance comparison of lines 244–265, as a flag: `true` iff a
mismatch is pushed. Both numeric: mismatch iff
`Math.abs(gstr2bValue - prValue) > Math.abs(gstr2bValue) * 0.001`;
otherwise mismatch iff `String(gstr2bValue) !== String(prValue)`. -/
def compareFlag : Option Value → Option Value → Bool
  | some (.num a), some (.num b) => decide (|a - b| > |a| * (1 / 1000))
  | gv, pv => valueToStr gv != valueToStr pv

/-- Lines 237–266: iterate `Object.entries(mappedFields)`, skip key
fields, push a mismatch when the tolerance comparison flags one. -/
def computeMismatches (opts : ReconciliationOptions)
    (gstr2bEntry bestMatch : Record) : List FieldMismatch :=
  opts.mappedFields.filterMap (fun q =>
    if opts.keyFields.contains q.1 then none
    else if compareFlag (lookupField gstr2bEntry q.1) (lookupField bestMatch q.2) then
      some { field := q.1
             gstr2bValue := lookupField gstr2bEntry q.1
             purchaseRegisterValue := lookupField bestMatch q.2 }
    else none)

/-- Lines 269–273: the entry pushed onto `common` for an accepted source
record. -/
def mkCommonEntry (search : FuseSearch) (tgt : List Record)
    (opts : ReconciliationOptions) (e : Record) : CommonEntry :=
  { gstr2b := e
    purchaseRegister := bestMatchOf search tgt opts e
    mismatches := computeMismatches opts e (bestMatchOf search tgt opts e) }

/-- JS `Set.add` on the insertion-ordered set of matched indices. -/
def setAdd (s : List Int) (i : Int) : List Int :=
  if s.contains i then s else s ++ [i]

/-- Lines 216–280: the `gstr2bData.forEach` loop, threading the matched
purchase-register index set and accumulating `common` and `moreInGstr2b`
in iteration order. -/
def reconLoop (search : FuseSearch) (tgt : List Record)
    (opts : ReconciliationOptions) :
    List Record → List Int → List CommonEntry × List Record × List Int
  | [], matched => ([], [], matched)
  | e :: rest, matched =>
    if entryMatches search tgt opts e then
      let bestMatchIndex := indexOfRecord tgt (bestMatchOf search tgt opts e)
      let r := reconLoop search tgt opts rest (setAdd matched bestMatchIndex)
      (mkCommonEntry search tgt opts e :: r.1, r.2.1, r.2.2)
    else
      let r := reconLoop search tgt opts rest matched
      (r.1, e :: r.2.1, r.2.2)

/-- Lines 283–287: `purchaseRegisterData.forEach((prEntry, index) => ...)`
collecting entries whose index is not in the matched set, in order. -/
def collectUnmatched (matched : List Int) : List Record → Nat → List Record
  | [], _ => []
  | r :: rest, i =>
    if matched.contains (i : Int) then collectUnmatched matched rest (i + 1)
    else r :: collectUnmatched matched rest (i + 1)

/-- Lines 191–294: `performReconciliation`, parametrised over the fuzzy
search. -/
def performReconciliation (search : FuseSearch)
    (gstr2bData purchaseRegisterData : List Record)
    (options : ReconciliationOptions) : MatchResult :=
  let r := reconLoop search purchaseRegisterData options gstr2bData []
  { common := r.1
    moreInGstr2b := r.2.1
    lessInGstr2b := collectUnmatched r.2.2 purchaseRegisterData 0 }

/-- Modelled from the spec: the FuzzyIndex (§4.2) is realised in the code
by the external Fuse.js library, which is not among this repository's
sources. Per key field the stringified record value is compared with the
pattern value; the score is the fraction of disagreeing key fields, so an
exact match across all key fields scores 0, as §4.2 requires; a record in
which every indexed key field is absent holds no indexed text and is never
returned. Hits are in ascending score order, ties kept in dataset order. -/
def keyAgrees (r : Record) (pattern : List (String × String)) (k : String) : Bool :=
  match lookupField r k with
  | some v => valueToStr v == (((pattern.find? (fun p => p.1 == k)).map (fun p => p.2)).getD "")
  | none => false

/-- Stable insertion into a score-sorted hit list (earlier hits stay first
on equal scores). -/
def insertHit (p : Nat × ℚ) : List (Nat × ℚ) → List (Nat × ℚ)
  | [] => [p]
  | q :: rest => if q.2 ≤ p.2 then q :: insertHit p rest else p :: q :: rest

/-- Modelled from the spec: the query of the FuzzyIndex (§4.2); see
`keyAgrees`. -/
def modelFuseSearch : FuseSearch := fun data keys _threshold pattern =>
  if keys.isEmpty then []
  else
    (data.enum.filterMap (fun p =>
      if keys.all (fun k => (lookupField p.2 k).isNone) then none
      else some (p.1,
        ((keys.countP (fun k => !(keyAgrees p.2 pattern k)) : ℚ) / (keys.length : ℚ))))).foldr
      insertHit []

/-- Lines 314–360 of `reconciliationUtils.ts`: the keyword groups of
`suggestColumnMappings`, in declaration order. -/
structure KeywordGroup where
  gstr : List String
  pr : List String
deriving DecidableEq, Repr

/-- Keyword groups `commonKeywords` of `suggestColumnMappings` (lines 319–330). -/
def commonKeywords : List KeywordGroup :=
  [ ⟨["gstin", "gst"], ["gstin", "gst"]⟩
  , ⟨["invoice", "bill"], ["invoice", "bill"]⟩
  , ⟨["date"], ["date"]⟩
  , ⟨["taxable", "value"], ["taxable", "value"]⟩
  , ⟨["amount", "total"], ["amount", "total"]⟩
  , ⟨["igst"], ["igst"]⟩
  , ⟨["cgst"], ["cgst"]⟩
  , ⟨["sgst"], ["sgst"]⟩
  , ⟨["supplier", "vendor"], ["supplier", "vendor"]⟩
  , ⟨["party"], ["party"]⟩ ]

/-- Model of JS `toLowerCase` (ASCII-adequate for the keyword matching). -/
def strToLower (s : String) : String := s.map Char.toLower

/-- Does `l` begin with `pre`? -/
def headStarts : List Char → List Char → Bool
  | [], _ => true
  | _ :: _, [] => false
  | c :: cs, d :: ds => c == d && headStarts cs ds

/-- Substring containment on character lists. -/
def listIncludes (sub : List Char) : List Char → Bool
  | [] => sub.isEmpty
  | c :: t => headStarts sub (c :: t) || listIncludes sub t

/-- Model of JS `hay.includes(needle)` (substring containment). -/
def strIncludes (hay needle : String) : Bool :=
  listIncludes needle.toList hay.toList

/-- Lines 336–356: the inner `for (const keywordSet of commonKeywords)`
loop for one source header — on a source-keyword hit, look for the first
target header carrying a target keyword; record it and break when found,
otherwise continue with the next group. -/
def findMappingForHeader (groups : List KeywordGroup)
    (purchaseRegisterHeaders : List String) (gstrHeader : String) : Option String :=
  match groups with
  | [] => none
  | keywordSet :: rest =>
    if keywordSet.gstr.any (fun keyword =>
        strIncludes (strToLower gstrHeader) (strToLower keyword)) then
      match purchaseRegisterHeaders.find? (fun prHeader =>
          keywordSet.pr.any (fun keyword =>
            strIncludes (strToLower prHeader) (strToLower keyword))) with
      | some matchingPrHeader => some matchingPrHeader
      | none => findMappingForHeader rest purchaseRegisterHeaders gstrHeader
    else findMappingForHeader rest purchaseRegisterHeaders gstrHeader

/-- JS object assignment `mappings[gstrHeader] = matchingPrHeader` on an
insertion-ordered object modelled as an association list. -/
def objInsert : List (String × String) → String → String → List (String × String)
  | [], k, v => [(k, v)]
  | (k', v') :: rest, k, v =>
    if k' == k then (k, v) :: rest else (k', v') :: objInsert rest k v

/-- Lookup in the association-list object. -/
def objLookup (m : List (String × String)) (k : String) : Option String :=
  (m.find? (fun q => q.1 == k)).map (fun q => q.2)

/-- Lines 314–360: `suggestColumnMappings`. -/
def suggestColumnMappings (gstr2bHeaders purchaseRegisterHeaders : List String) :
    List (String × String) :=
  gstr2bHeaders.foldl (fun mappings gstrHeader =>
    match findMappingForHeader commonKeywords purchaseRegisterHeaders gstrHeader with
    | some matchingPrHeader => objInsert mappings gstrHeader matchingPrHeader
    | none => mappings) []

/-- The claim's reading of the per-header suggestion: scan the keyword
groups in declaration order, and for the first group whose source keywords
hit the header *and* for which some target header carries a target
keyword, pair with the first such target header. -/
def claimSuggestOne (purchaseRegisterHeaders : List String) (gstrHeader : String) :
    Option String :=
  commonKeywords.findSome? (fun keywordSet =>
    if keywordSet.gstr.any (fun keyword =>
        strIncludes (strToLower gstrHeader) (strToLower keyword)) then
      purchaseRegisterHeaders.find? (fun prHeader =>
        keywordSet.pr.any (fun keyword =>
          strIncludes (strToLower prHeader) (strToLower keyword)))
    else none)

/-- Line 72 of `ReconciliationOptions.tsx`:
`disabled={isDisabled || keyFields.length === 0}` — the UI-layer guard
that blocks reconciliation when no key field is selected. -/
def reconcileDisabled (isDisabled : Bool) (keyFields : List String) : Bool :=
  isDisabled || keyFields.length == 0

/-- The matched purchase-register index set after the whole source loop
(the final value of `matchedPurchaseIndices`). -/
def matchedIdxs (search : FuseSearch) (tgt : List Record)
    (opts : ReconciliationOptions) (src : List Record) : List Int :=
  src.foldl (fun acc e =>
    if entryMatches search tgt opts e then
      setAdd acc (indexOfRecord tgt (bestMatchOf search tgt opts e))
    else acc) []

/-! ## Concrete data

Fixtures for concrete runs: the spec's end-to-end scenario (§8), a
duplicate-source run exhibiting double consumption of one target record,
and a matched run with field mismatches. -/

/-- Scenario (§8) source record:
`{invoice:"INV-001", gstin:"29ABCDE1234F1Z5", amount:1000}`. -/
def scnSrcRec : Record :=
  [("invoice", .str "INV-001"), ("gstin", .str "29ABCDE1234F1Z5"), ("amount", .num 1000)]

/-- Scenario (§8) target record:
`{inv_no:"INV-001", gst:"29ABCDE1234F1Z5", amt:1000.5}`. -/
def scnTgtRec : Record :=
  [("inv_no", .str "INV-001"), ("gst", .str "29ABCDE1234F1Z5"), ("amt", .num (2001 / 2))]

/-- Scenario (§8) options: threshold 90, keys invoice/gstin, mapping
invoice→inv_no, gstin→gst, amount→amt. -/
def scnOpts : ReconciliationOptions :=
  { matchingThreshold := 90
    keyFields := ["invoice", "gstin"]
    mappedFields := [("invoice", "inv_no"), ("gstin", "gst"), ("amount", "amt")] }

/-- A record used both as two identical source rows and as the single
target row. -/
def dupRec : Record := [("k", .str "X")]

/-- Options for the duplicate-source run: key field `k` mapped to itself. -/
def dupOpts : ReconciliationOptions :=
  { matchingThreshold := 90, keyFields := ["k"], mappedFields := [("k", "k")] }

/-- Source row of the mismatch run: key `inv`, three numeric payload
fields and one textual payload field. -/
def w4src : Record :=
  [("inv", .str "A1"), ("a1", .num 100), ("a2", .num 100), ("a3", .num 0), ("t", .str "x")]

/-- Target row of the mismatch run: `b1 = 100.09` (inside tolerance),
`b2 = 100.11` (outside), `b3 = 5` against source `0`, `u` equal text. -/
def w4tgt : Record :=
  [("inv", .str "A1"), ("b1", .num (10009 / 100)), ("b2", .num (10011 / 100)),
   ("b3", .num 5), ("u", .str "x")]

/-- Options of the mismatch run. -/
def w4opts : ReconciliationOptions :=
  { matchingThreshold := 90
    keyFields := ["inv"]
    mappedFields := [("inv", "inv"), ("a1", "b1"), ("a2", "b2"), ("a3", "b3"), ("t", "u")] }

/-- The single common entry produced by the mismatch run. -/
def w4common : CommonEntry :=
  { gstr2b := w4src
    purchaseRegister := w4tgt
    mismatches :=
      [ { field := "a2", gstr2bValue := some (.num 100)
          purchaseRegisterValue := some (.num (10011 / 100)) }
      , { field := "a3", gstr2bValue := some (.num 0)
          purchaseRegisterValue := some (.num 5) } ] }

/-- The first mismatch of the mismatch run (`a2`: 100 vs 100.11). -/
def w4mismatch : FieldMismatch :=
  { field := "a2", gstr2bValue := some (.num 100)
    purchaseRegisterValue := some (.num (10011 / 100)) }

/-! ## Structural lemmas about the engine -/

/-- The source loop, in closed form: the accepted entries (in order) give
`common`, the rejected ones (in order) give `moreInGstr2b`, and the
matched-index set accumulates over the accepted entries. -/
theorem reconLoop_eq (search : FuseSearch) (tgt : List Record)
    (opts : ReconciliationOptions) (entries : List Record) (matched : List Int) :
    reconLoop search tgt opts entries matched =
      ((entries.filter (fun e => entryMatches search tgt opts e)).map
          (mkCommonEntry search tgt opts),
        entries.filter (fun e => !entryMatches search tgt opts e),
        entries.foldl (fun acc e =>
          if entryMatches search tgt opts e then
            setAdd acc (indexOfRecord tgt (bestMatchOf search tgt opts e))
          else acc) matched) := by
  induction entries generalizing matched with
  | nil => simp [reconLoop]
  | cons e rest ih =>
    by_cases h : entryMatches search tgt opts e
    · simp [reconLoop, h, ih]
    · simp [reconLoop, h, ih]

theorem performReconciliation_common (search : FuseSearch) (src tgt : List Record)
    (opts : ReconciliationOptions) :
    (performReconciliation search src tgt opts).common =
      (src.filter (fun e => entryMatches search tgt opts e)).map
        (mkCommonEntry search tgt opts) := by
  simp [performReconciliation, reconLoop_eq]

theorem performReconciliation_more (search : FuseSearch) (src tgt : List Record)
    (opts : ReconciliationOptions) :
    (performReconciliation search src tgt opts).moreInGstr2b =
      src.filter (fun e => !entryMatches search tgt opts e) := by
  simp [performReconciliation, reconLoop_eq]

theorem performReconciliation_less (search : FuseSearch) (src tgt : List Record)
    (opts : ReconciliationOptions) :
    (performReconciliation search src tgt opts).lessInGstr2b =
      collectUnmatched (matchedIdxs search tgt opts src) tgt 0 := by
  simp [performReconciliation, reconLoop_eq, matchedIdxs]

theorem length_filter_partition (p : α → Bool) (l : List α) :
    (l.filter p).length + (l.filter (fun a => !p a)).length = l.length := by
  induction l with
  | nil => rfl
  | cons a t ih =>
    by_cases h : p a <;> simp [h] <;> omega

theorem performReconciliation_partition_length (search : FuseSearch)
    (src tgt : List Record) (opts : ReconciliationOptions) :
    (performReconciliation search src tgt opts).common.length +
      (performReconciliation search src tgt opts).moreInGstr2b.length = src.length := by
  rw [performReconciliation_common, performReconciliation_more, List.length_map]
  exact length_filter_partition _ src

theorem setAdd_mem (s : List Int) (i j : Int) :
    j ∈ setAdd s i ↔ j ∈ s ∨ j = i := by
  unfold setAdd
  by_cases h : s.contains i
  · simp only [h, if_true]
    constructor
    · exact Or.inl
    · rintro (hj | rfl)
      · exact hj
      · exact List.mem_of_elem_eq_true h
  · have h' : i ∉ s := fun hm => h (List.elem_eq_true_of_mem hm)
    simp [h']

theorem setAdd_length_le (s : List Int) (i : Int) :
    (setAdd s i).length ≤ s.length + 1 := by
  unfold setAdd
  by_cases h : s.contains i <;> simp only [h, if_true, if_false] <;> simp

theorem mem_foldl_setAdd (d : Record → Bool) (f : Record → Int)
    (l : List Record) (acc : List Int) (j : Int) :
    (j ∈ l.foldl (fun a e => if d e then setAdd a (f e) else a) acc) ↔
      j ∈ acc ∨ ∃ e ∈ l, d e = true ∧ f e = j := by
  induction l generalizing acc with
  | nil => simp
  | cons e rest ih =>
    by_cases h : d e
    · simp only [List.foldl_cons, h, if_true, ih, setAdd_mem, List.mem_cons]
      constructor
      · rintro ((hj | rfl) | ⟨e', he', hd, hf⟩)
        · exact Or.inl hj
        · exact Or.inr ⟨e, Or.inl rfl, h, rfl⟩
        · exact Or.inr ⟨e', Or.inr he', hd, hf⟩
      · rintro (hj | ⟨e', (rfl | he'), hd, hf⟩)
        · exact Or.inl (Or.inl hj)
        · exact Or.inl (Or.inr hf.symm)
        · exact Or.inr ⟨e', he', hd, hf⟩
    · simp only [List.foldl_cons, h, if_false, ih, List.mem_cons]
      constructor
      · rintro (hj | ⟨e', he', hd, hf⟩)
        · exact Or.inl hj
        · exact Or.inr ⟨e', Or.inr he', hd, hf⟩
      · rintro (hj | ⟨e', (rfl | he'), hd, hf⟩)
        · exact Or.inl hj
        · exact absurd hd (by simp [h])
        · exact Or.inr ⟨e', he', hd, hf⟩

theorem length_foldl_setAdd (d : Record → Bool) (f : Record → Int)
    (l : List Record) (acc : List Int) :
    (l.foldl (fun a e => if d e then setAdd a (f e) else a) acc).length ≤
      acc.length + (l.filter d).length := by
  induction l generalizing acc with
  | nil => simp
  | cons e rest ih =>
    by_cases h : d e
    · simp only [List.foldl_cons, h, if_true]
      calc (rest.foldl _ (setAdd acc (f e))).length
          ≤ (setAdd acc (f e)).length + (rest.filter d).length := ih _
        _ ≤ acc.length + 1 + (rest.filter d).length :=
            Nat.add_le_add_right (setAdd_length_le acc (f e)) _
        _ = acc.length + ((e :: rest).filter d).length := by simp [h]; omega
    · simp only [List.foldl_cons, h, if_false]
      calc (rest.foldl _ acc).length ≤ acc.length + (rest.filter d).length := ih _
        _ = acc.length + ((e :: rest).filter d).length := by simp [h]

theorem idxOfAux_get? (r : Record) (l : List Record) (k : Nat)
    (h : idxOfAux r l = some k) : l.get? k = some r := by
  induction l generalizing k with
  | nil => simp [idxOfAux] at h
  | cons x rest ih =>
    by_cases hx : x = r
    · simp [idxOfAux, hx] at h
      subst h
      simp [hx]
    · simp [idxOfAux, hx] at h
      obtain ⟨k', hk', rfl⟩ := h
      simpa using ih k' hk'

theorem idxOfAux_of_mem (r : Record) (l : List Record) (h : r ∈ l) :
    ∃ k, idxOfAux r l = some k := by
  induction l with
  | nil => simp at h
  | cons x rest ih =>
    by_cases hx : x = r
    · exact ⟨0, by simp [idxOfAux, hx]⟩
    · obtain ⟨k, hk⟩ := ih (by
        rcases List.mem_cons.mp h with h' | h'
        · exact absurd h'.symm hx
        · exact h')
      exact ⟨k + 1, by simp [idxOfAux, hx, hk]⟩

theorem indexOfRecord_of_mem (l : List Record) (r : Record) (h : r ∈ l) :
    ∃ k : Nat, indexOfRecord l r = (k : Int) ∧ l.get? k = some r := by
  obtain ⟨k, hk⟩ := idxOfAux_of_mem r l h
  exact ⟨k, by simp [indexOfRecord, hk], idxOfAux_get? r l k hk⟩

theorem collectUnmatched_sublist (m : List Int) (l : List Record) (i : Nat) :
    (collectUnmatched m l i).Sublist l := by
  induction l generalizing i with
  | nil => simp [collectUnmatched]
  | cons r t ih =>
    by_cases h : m.contains (i : Int)
    · simp only [collectUnmatched, h, if_true]
      exact (ih (i + 1)).cons r
    · simp only [collectUnmatched, h, if_false]
      exact (ih (i + 1)).cons₂ r

theorem collectUnmatched_mem_iff (m : List Int) (l : List Record) (i : Nat)
    (x : Record) :
    x ∈ collectUnmatched m l i ↔
      ∃ k, l.get? k = some x ∧ m.contains ((i + k : Nat) : Int) = false := by
  induction l generalizing i with
  | nil => simp [collectUnmatched]
  | cons r t ih =>
    by_cases h : m.contains (i : Int) = true
    · rw [show collectUnmatched m (r :: t) i =
          collectUnmatched m t (i + 1) from by rw [collectUnmatched, if_pos h], ih]
      constructor
      · rintro ⟨k, hget, hc⟩
        refine ⟨k + 1, by simpa using hget, ?_⟩
        have he : i + (k + 1) = i + 1 + k := by omega
        rw [he]
        exact hc
      · rintro ⟨k, hget, hc⟩
        cases k with
        | zero =>
          exfalso
          simp only [Nat.add_zero] at hc
          rw [h] at hc
          cases hc
        | succ k' =>
          refine ⟨k', by simpa using hget, ?_⟩
          have he : i + 1 + k' = i + (k' + 1) := by omega
          rw [he]
          exact hc
    · rw [show collectUnmatched m (r :: t) i =
          r :: collectUnmatched m t (i + 1) from by rw [collectUnmatched, if_neg h],
        List.mem_cons, ih]
      constructor
      · rintro (rfl | ⟨k, hget, hc⟩)
        · exact ⟨0, by simp, by simpa using Bool.eq_false_iff.mpr h⟩
        · refine ⟨k + 1, by simpa using hget, ?_⟩
          have he : i + (k + 1) = i + 1 + k := by omega
          rw [he]
          exact hc
      · rintro ⟨k, hget, hc⟩
        cases k with
        | zero =>
          simp only [List.get?_cons_zero, Option.some_inj] at hget
          exact Or.inl hget.symm
        | succ k' =>
          refine Or.inr ⟨k', by simpa using hget, ?_⟩
          have he : i + 1 + k' = i + (k' + 1) := by omega
          rw [he]
          exact hc

theorem collectUnmatched_length (m : List Int) (l : List Record) (i : Nat) :
    (collectUnmatched m l i).length +
      ((List.range' i l.length).filter (fun n => m.contains ((n : Nat) : Int))).length =
      l.length := by
  induction l generalizing i with
  | nil => simp [collectUnmatched]
  | cons r t ih =>
    have hr : List.range' i (r :: t).length = i :: List.range' (i + 1) t.length := by
      rw [List.length_cons, List.range'_succ]
    rw [hr, List.filter_cons]
    by_cases h : m.contains (i : Int) = true
    · rw [show collectUnmatched m (r :: t) i =
          collectUnmatched m t (i + 1) from by rw [collectUnmatched, if_pos h]]
      simp only [h, if_true, List.length_cons]
      have := ih (i + 1)
      omega
    · rw [show collectUnmatched m (r :: t) i =
          r :: collectUnmatched m t (i + 1) from by rw [collectUnmatched, if_neg h]]
      simp only [Bool.not_eq_true] at h
      simp only [h, Bool.false_eq_true, if_false, List.length_cons]
      have := ih (i + 1)
      omega

theorem filter_range'_contains_length_le (m : List Int) (i n : Nat) :
    ((List.range' i n).filter (fun k => m.contains ((k : Nat) : Int))).length ≤
      m.length := by
  set l' := ((List.range' i n).filter (fun k => m.contains ((k : Nat) : Int))).map
      (fun k => ((k : Nat) : Int)) with hl'
  have hnd : l'.Nodup := by
    refine List.Nodup.map (fun a b hab => by exact_mod_cast hab) ?_
    exact (List.filter_sublist _).nodup (List.nodup_range' i n)
  have hsub : l' ⊆ m := by
    intro z hz
    rw [hl'] at hz
    obtain ⟨k, hk, rfl⟩ := List.mem_map.mp hz
    have := List.of_mem_filter hk
    exact List.mem_of_elem_eq_true this
  have := (hnd.subperm hsub).length_le
  simpa [hl'] using this

theorem insertHit_mem (p x : Nat × ℚ) (l : List (Nat × ℚ)) :
    x ∈ insertHit p l ↔ x = p ∨ x ∈ l := by
  induction l with
  | nil => simp [insertHit]
  | cons q rest ih =>
    by_cases h : q.2 ≤ p.2
    · simp only [insertHit, h, if_true, List.mem_cons, ih]
      tauto
    · simp only [insertHit, h, if_false, List.mem_cons]

theorem mem_foldr_insertHit (x : Nat × ℚ) (l : List (Nat × ℚ)) :
    x ∈ l.foldr insertHit [] ↔ x ∈ l := by
  induction l with
  | nil => simp
  | cons q rest ih => simp [insertHit_mem, ih]

/-- The spec-modelled search only returns indices into the dataset. -/
theorem modelFuseSearch_wf (data : List Record) (keys : List String) (thr : ℚ)
    (pattern : List (String × String)) (i : Nat) (s : ℚ)
    (h : (i, s) ∈ modelFuseSearch data keys thr pattern) : i < data.length := by
  unfold modelFuseSearch at h
  by_cases hk : keys.isEmpty
  · simp [hk] at h
  · simp only [hk, Bool.false_eq_true, if_false, mem_foldr_insertHit] at h
    obtain ⟨p, hp, hsome⟩ := List.mem_filterMap.mp h
    by_cases hall : keys.all (fun k => (lookupField p.2 k).isNone)
    · simp [hall] at hsome
    · simp only [hall, Bool.false_eq_true, if_false, Option.some_inj] at hsome
      have hi : p.1 = i := congrArg Prod.fst hsome
      have : p.1 ∈ data.enum.map Prod.fst := List.mem_map_of_mem Prod.fst hp
      rw [List.enum_map_fst] at this
      rw [hi] at this
      exact List.mem_range.mp this

/-- The tolerance flag, as a proposition (the claim's comparison policy). -/
theorem compareFlag_iff (gv pv : Option Value) :
    compareFlag gv pv = true ↔
      (match gv, pv with
       | some (.num a), some (.num b) => |a - b| > |a| * (1 / 1000)
       | gv, pv => valueToStr gv ≠ valueToStr pv) := by
  cases gv with
  | none =>
    cases pv with
    | none => simp [compareFlag]
    | some w => cases w <;> simp [compareFlag]
  | some v =>
    cases v with
    | str s =>
      cases pv with
      | none => simp [compareFlag]
      | some w => cases w <;> simp [compareFlag]
    | num a =>
      cases pv with
      | none => simp [compareFlag]
      | some w =>
        cases w with
        | str u => simp [compareFlag]
        | num b => simp [compareFlag]

/-- In a list of pairs with no duplicate first components, the first
component determines the second. -/
theorem nodup_fst_eq {l : List (String × String)} (h : (l.map Prod.fst).Nodup)
    {a b c : String} (h1 : (a, b) ∈ l) (h2 : (a, c) ∈ l) : b = c := by
  induction l with
  | nil => simp at h1
  | cons q t ih =>
    rw [List.map_cons, List.nodup_cons] at h
    rcases List.mem_cons.mp h1 with e1 | m1 <;> rcases List.mem_cons.mp h2 with e2 | m2
    · exact congrArg Prod.snd (e1.trans e2.symm)
    · exfalso
      have ha : a ∈ t.map Prod.fst := List.mem_map.mpr ⟨(a, c), m2, rfl⟩
      have hq1 : q.1 = a := by rw [← e1]
      rw [hq1] at h
      exact h.1 ha
    · exfalso
      have ha : a ∈ t.map Prod.fst := List.mem_map.mpr ⟨(a, b), m1, rfl⟩
      have hq1 : q.1 = a := by rw [← e2]
      rw [hq1] at h
      exact h.1 ha
    · exact ih h.2 m1 m2

/-- Membership of a field in the mismatch list of a pair, for a mapped
non-key field, is exactly the tolerance flag of its two looked-up values. -/
theorem computeMismatches_mem_iff (opts : ReconciliationOptions)
    (g p : Record) (hnd : (opts.mappedFields.map Prod.fst).Nodup)
    (gf pf : String) (hmem : (gf, pf) ∈ opts.mappedFields)
    (hk : opts.keyFields.contains gf = false) :
    (∃ m ∈ computeMismatches opts g p,
        m.field = gf ∧ m.gstr2bValue = lookupField g gf ∧
        m.purchaseRegisterValue = lookupField p pf) ↔
      compareFlag (lookupField g gf) (lookupField p pf) = true := by
  constructor
  · rintro ⟨m, hm, hfield, _, _⟩
    rw [computeMismatches] at hm
    obtain ⟨q, hq, hsome⟩ := List.mem_filterMap.mp hm
    by_cases hkq : opts.keyFields.contains q.1 = true
    · rw [if_pos hkq] at hsome
      exact absurd hsome (by simp)
    · rw [if_neg hkq] at hsome
      by_cases hcf : compareFlag (lookupField g q.1) (lookupField p q.2) = true
      · rw [if_pos hcf] at hsome
        have hm' := Option.some.inj hsome
        have hq1 : q.1 = gf := by rw [← hm'] at hfield; exact hfield
        have hq2 : q.2 = pf := by
          have hqe : (gf, q.2) ∈ opts.mappedFields := by
            have he : q = (gf, q.2) := by rw [← hq1]
            rw [← he]
            exact hq
          exact nodup_fst_eq hnd hqe hmem
        rw [← hq1, ← hq2]
        exact hcf
      · rw [if_neg hcf] at hsome
        exact absurd hsome (by simp)
  · intro hcf
    refine ⟨{ field := gf, gstr2bValue := lookupField g gf,
              purchaseRegisterValue := lookupField p pf }, ?_, rfl, rfl, rfl⟩
    rw [computeMismatches]
    apply List.mem_filterMap.mpr
    refine ⟨(gf, pf), hmem, ?_⟩
    rw [if_neg (by rw [hk]; exact Bool.false_ne_true), if_pos hcf]

/-- The subjects of `common` are exactly the accepted source entries, in
source order. -/
theorem common_map_gstr2b (search : FuseSearch) (src tgt : List Record)
    (opts : ReconciliationOptions) :
    (performReconciliation search src tgt opts).common.map (fun ce => ce.gstr2b) =
      src.filter (fun e => entryMatches search tgt opts e) := by
  rw [performReconciliation_common, List.map_map]
  have hc : ((fun ce => ce.gstr2b) ∘ mkCommonEntry search tgt opts) =
      fun e : Record => e := by
    funext e
    rfl
  rw [hc]
  exact List.map_id' _

/-! ## The claims -/

/-- C5: every source (GSTR-2B) record is processed exactly once — the
subjects of `common` are the accepted source entries in order, the
rejected ones form `moreInGstr2b`, and the two counts sum to the source
dataset's size. -/
theorem c5_source_partition (search : FuseSearch) (src tgt : List Record)
    (opts : ReconciliationOptions) :
    ((performReconciliation search src tgt opts).common.map (fun ce => ce.gstr2b) =
        src.filter (fun e => entryMatches search tgt opts e)) ∧
    ((performReconciliation search src tgt opts).moreInGstr2b =
        src.filter (fun e => !entryMatches search tgt opts e)) ∧
    ((performReconciliation search src tgt opts).common.length +
        (performReconciliation search src tgt opts).moreInGstr2b.length = src.length) :=
  ⟨common_map_gstr2b search src tgt opts,
   performReconciliation_more search src tgt opts,
   performReconciliation_partition_length search src tgt opts⟩

/-- C6: a source record is accepted as a match iff the fuzzy query
returns at least one candidate and the first (best) candidate's score is
at most `1 - threshold/100`; rejected records land in `moreInGstr2b`, and
the accepted record's counterpart is the first candidate's target
record. -/
theorem c6_accept_iff_best_score_within_threshold (search : FuseSearch)
    (src tgt : List Record) (opts : ReconciliationOptions) :
    ((performReconciliation search src tgt opts).common.map (fun ce => ce.gstr2b) =
        src.filter (fun e => entryMatches search tgt opts e)) ∧
    ((performReconciliation search src tgt opts).moreInGstr2b =
        src.filter (fun e => !entryMatches search tgt opts e)) ∧
    (∀ e : Record, entryMatches search tgt opts e = true ↔
        ∃ idx score rest, entryResults search tgt opts e = (idx, score) :: rest ∧
          score ≤ 1 - opts.matchingThreshold / 100) ∧
    (∀ (e : Record) (idx : Nat) (score : ℚ) (rest : List (Nat × ℚ)),
        entryResults search tgt opts e = (idx, score) :: rest →
          bestMatchOf search tgt opts e = tgt.getD idx []) := by
  refine ⟨common_map_gstr2b search src tgt opts,
    performReconciliation_more search src tgt opts, ?_, ?_⟩
  · intro e
    cases h : entryResults search tgt opts e with
    | nil => simp [entryMatches, h]
    | cons hd rest' =>
      cases hd with
      | mk i s =>
        simp only [entryMatches, h, fuseThreshold, decide_eq_true_eq, List.cons.injEq,
          Prod.mk.injEq]
        constructor
        · intro hle
          exact ⟨i, s, rest', ⟨⟨rfl, rfl⟩, rfl⟩, hle⟩
        · rintro ⟨idx, score, rest, ⟨⟨rfl, rfl⟩, rfl⟩, hle⟩
          exact hle
  · intro e idx score rest h
    simp [bestMatchOf, h]

/-- C7: no field mismatch is ever reported for a key field. -/
theorem c7_no_mismatch_on_key_fields (search : FuseSearch) (src tgt : List Record)
    (opts : ReconciliationOptions) :
    ∀ ce ∈ (performReconciliation search src tgt opts).common,
      ∀ m ∈ ce.mismatches, opts.keyFields.contains m.field = false := by
  intro ce hce m hm
  rw [performReconciliation_common] at hce
  obtain ⟨e, _, rfl⟩ := List.mem_map.mp hce
  have hm' : m ∈ computeMismatches opts e (bestMatchOf search tgt opts e) := hm
  rw [computeMismatches] at hm'
  obtain ⟨q, _, hsome⟩ := List.mem_filterMap.mp hm'
  by_cases hkq : opts.keyFields.contains q.1 = true
  · rw [if_pos hkq] at hsome
    exact absurd hsome (by simp)
  · rw [if_neg hkq] at hsome
    by_cases hcf : compareFlag (lookupField e q.1) (lookupField (bestMatchOf search tgt opts e) q.2) = true
    · rw [if_pos hcf] at hsome
      have hfld : m.field = q.1 := by
        rw [← Option.some.inj hsome]
      rw [hfld]
      exact Bool.not_eq_true _ ▸ Bool.of_not_eq_true hkq
    · rw [if_neg hcf] at hsome
      exact absurd hsome (by simp)

/-- C9: with an empty key-field list the engine does not fail — it runs
the same total computation and still partitions the source dataset — and
the UI layer's Reconcile button is disabled whenever no key field is
selected. -/
theorem c9_empty_key_fields_no_engine_error (search : FuseSearch)
    (src tgt : List Record) (thr : ℚ) (mapped : List (String × String)) (d : Bool) :
    ((performReconciliation search src tgt
        { matchingThreshold := thr, keyFields := [], mappedFields := mapped }).common.length +
      (performReconciliation search src tgt
        { matchingThreshold := thr, keyFields := [], mappedFields := mapped }).moreInGstr2b.length
        = src.length) ∧
    reconcileDisabled d [] = true :=
  ⟨performReconciliation_partition_length search src tgt _, by simp [reconcileDisabled]⟩

/-- C10: output order preservation — `common` lists pairs in the order of
their source records, `moreInGstr2b` preserves the source dataset's
relative order, and `lessInGstr2b` preserves the target dataset's
relative order. -/
theorem c10_order_preservation (search : FuseSearch) (src tgt : List Record)
    (opts : ReconciliationOptions) :
    List.Sublist
        ((performReconciliation search src tgt opts).common.map (fun ce => ce.gstr2b)) src ∧
    List.Sublist (performReconciliation search src tgt opts).moreInGstr2b src ∧
    List.Sublist (performReconciliation search src tgt opts).lessInGstr2b tgt := by
  refine ⟨?_, ?_, ?_⟩
  · rw [common_map_gstr2b]
    exact List.filter_sublist src
  · rw [performReconciliation_more]
    exact List.filter_sublist src
  · rw [performReconciliation_less]
    exact collectUnmatched_sublist _ tgt 0

/-- For a search returning only valid indices, an accepted source entry's
best match is a member of the target dataset. -/
theorem bestMatchOf_mem (search : FuseSearch) (tgt : List Record)
    (opts : ReconciliationOptions) (e : Record)
    (hwf : ∀ (keys : List String) (thr : ℚ) (pat : List (String × String))
      (i : Nat) (s : ℚ), (i, s) ∈ search tgt keys thr pat → i < tgt.length)
    (hm : entryMatches search tgt opts e = true) :
    bestMatchOf search tgt opts e ∈ tgt := by
  cases h : entryResults search tgt opts e with
  | nil =>
    rw [entryMatches, h] at hm
    cases hm
  | cons hd rest =>
    obtain ⟨i, s⟩ := hd
    have hi : i < tgt.length := by
      apply hwf _ _ _ i s
      rw [entryResults] at h
      rw [h]
      exact List.mem_cons_self _ _
    rw [bestMatchOf, h]
    have hg : tgt.get? i = some (tgt.get ⟨i, hi⟩) := List.get?_eq_get hi
    show tgt.getD i [] ∈ tgt
    rw [List.getD_eq_get?, hg]
    exact List.get_mem tgt i hi

/-- C1 (amended): no target record is both a counterpart in `common` and a
member of `lessInGstr2b`; every target record is one or the other; and
`|target| ≤ |common| + |lessInGstr2b|` — but equality can fail, because
the engine never excludes an already-matched target from later queries,
so one target record can be the counterpart of several pairs. -/
theorem c1_target_partition_amended (search : FuseSearch) (src tgt : List Record)
    (opts : ReconciliationOptions)
    (hwf : ∀ (keys : List String) (thr : ℚ) (pat : List (String × String))
      (i : Nat) (s : ℚ), (i, s) ∈ search tgt keys thr pat → i < tgt.length)
    (hnd : tgt.Nodup) :
    (∀ ce ∈ (performReconciliation search src tgt opts).common,
        ce.purchaseRegister ∈ tgt ∧
          ce.purchaseRegister ∉ (performReconciliation search src tgt opts).lessInGstr2b) ∧
    (∀ r ∈ tgt,
        (∃ ce ∈ (performReconciliation search src tgt opts).common,
            ce.purchaseRegister = r) ∨
          r ∈ (performReconciliation search src tgt opts).lessInGstr2b) ∧
    tgt.length ≤ (performReconciliation search src tgt opts).common.length +
        (performReconciliation search src tgt opts).lessInGstr2b.length := by
  have hMmem : ∀ j : Int, j ∈ matchedIdxs search tgt opts src ↔
      ∃ e ∈ src, entryMatches search tgt opts e = true ∧
        indexOfRecord tgt (bestMatchOf search tgt opts e) = j := by
    intro j
    rw [matchedIdxs, mem_foldl_setAdd]
    simp
  refine ⟨?_, ?_, ?_⟩
  · intro ce hce
    rw [performReconciliation_common] at hce
    obtain ⟨e, hef, rfl⟩ := List.mem_map.mp hce
    obtain ⟨hesrc, hed⟩ := List.mem_filter.mp hef
    have hbm : bestMatchOf search tgt opts e ∈ tgt :=
      bestMatchOf_mem search tgt opts e hwf hed
    refine ⟨hbm, ?_⟩
    intro hin
    rw [performReconciliation_less, collectUnmatched_mem_iff] at hin
    obtain ⟨k, hk, hkc⟩ := hin
    obtain ⟨k0, hk0, hk0g⟩ := indexOfRecord_of_mem tgt _ hbm
    have hkM : ((k0 : Nat) : Int) ∈ matchedIdxs search tgt opts src := by
      rw [hMmem]
      exact ⟨e, hesrc, hed, hk0⟩
    have hkk0 : k = k0 := by
      have hklen : k < tgt.length := by
        by_contra hge
        rw [List.get?_eq_none.mpr (Nat.le_of_not_lt hge)] at hk
        cases hk
      exact List.get?_inj hklen hnd (hk.trans hk0g.symm)
    rw [Nat.zero_add, hkk0] at hkc
    have htrue : (matchedIdxs search tgt opts src).contains ((k0 : Nat) : Int) = true :=
      List.elem_eq_true_of_mem hkM
    rw [htrue] at hkc
    cases hkc
  · intro r hr
    obtain ⟨⟨j, hj⟩, hget⟩ := List.mem_iff_get.mp hr
    have hget? : tgt.get? j = some r := by
      rw [List.get?_eq_get hj, hget]
    by_cases hjM : (matchedIdxs search tgt opts src).contains ((j : Nat) : Int) = true
    · left
      have hjm := List.mem_of_elem_eq_true hjM
      rw [hMmem] at hjm
      obtain ⟨e, hesrc, hed, hidx⟩ := hjm
      refine ⟨mkCommonEntry search tgt opts e, ?_, ?_⟩
      · rw [performReconciliation_common]
        exact List.mem_map_of_mem _ (List.mem_filter.mpr ⟨hesrc, hed⟩)
      · show bestMatchOf search tgt opts e = r
        cases hidxa : idxOfAux (bestMatchOf search tgt opts e) tgt with
        | none =>
          rw [indexOfRecord, hidxa] at hidx
          have hneg : (-1 : Int) = ((j : Nat) : Int) := hidx
          exact absurd hneg (by omega)
        | some k0 =>
          rw [indexOfRecord, hidxa] at hidx
          have hk0j' : ((k0 : Nat) : Int) = ((j : Nat) : Int) := hidx
          have hk0j : k0 = j := by exact_mod_cast hk0j'
          have := idxOfAux_get? _ tgt k0 hidxa
          rw [hk0j, hget?] at this
          exact (Option.some.inj this).symm
    · right
      rw [performReconciliation_less, collectUnmatched_mem_iff]
      refine ⟨j, hget?, ?_⟩
      rw [Nat.zero_add]
      exact Bool.eq_false_iff.mpr hjM
  · have hlen := collectUnmatched_length (matchedIdxs search tgt opts src) tgt 0
    have hR := filter_range'_contains_length_le (matchedIdxs search tgt opts src) 0 tgt.length
    have hM : (matchedIdxs search tgt opts src).length ≤
        ([] : List Int).length + (src.filter (fun e => entryMatches search tgt opts e)).length := by
      rw [matchedIdxs]
      exact length_foldl_setAdd _ _ src []
    have hcommon : (performReconciliation search src tgt opts).common.length =
        (src.filter (fun e => entryMatches search tgt opts e)).length := by
      rw [performReconciliation_common, List.length_map]
    rw [performReconciliation_less]
    simp only [List.length_nil, Nat.zero_add] at hM
    omega

/-- C1 counterexample: two identical source rows against a single target
row; the lone target record becomes the counterpart of *two* matched
pairs and `|common| + |onlyInTarget| = 2 ≠ 1 = |target|`. -/
theorem c1_partition_counterexample :
    (performReconciliation modelFuseSearch [dupRec, dupRec] [dupRec] dupOpts).common.map
        (fun ce => ce.purchaseRegister) = [dupRec, dupRec] ∧
    ¬ ((performReconciliation modelFuseSearch [dupRec, dupRec] [dupRec] dupOpts).common.length +
        (performReconciliation modelFuseSearch
            [dupRec, dupRec] [dupRec] dupOpts).lessInGstr2b.length
        = ([dupRec] : List Record).length) := by
  decide

/-- Witness for `c1_target_partition_amended` at the duplicate-source
run. -/
theorem c1_target_partition_amended_witness :
    (∀ ce ∈ (performReconciliation modelFuseSearch [dupRec, dupRec] [dupRec] dupOpts).common,
        ce.purchaseRegister ∈ [dupRec] ∧
          ce.purchaseRegister ∉
            (performReconciliation modelFuseSearch [dupRec, dupRec] [dupRec] dupOpts).lessInGstr2b) ∧
    (∀ r ∈ [dupRec],
        (∃ ce ∈ (performReconciliation modelFuseSearch [dupRec, dupRec] [dupRec] dupOpts).common,
            ce.purchaseRegister = r) ∨
          r ∈ (performReconciliation modelFuseSearch [dupRec, dupRec] [dupRec] dupOpts).lessInGstr2b) ∧
    ([dupRec] : List Record).length ≤
      (performReconciliation modelFuseSearch [dupRec, dupRec] [dupRec] dupOpts).common.length +
        (performReconciliation modelFuseSearch [dupRec, dupRec] [dupRec] dupOpts).lessInGstr2b.length :=
  c1_target_partition_amended modelFuseSearch [dupRec, dupRec] [dupRec] dupOpts
    (fun keys thr pat i s h => modelFuseSearch_wf [dupRec] keys thr pat i s h)
    (by decide)

/-- C4: within any produced pair, a mapped non-key field is flagged iff
both values are numbers with `|source − target| > |source| · 0.001`, or
otherwise iff the stringified values differ; in particular, per the
tolerance comparison, source 100 against target 100.09 is not flagged,
100 against 100.11 is, and 0 against any non-zero number is. -/
theorem c4_tolerance_mismatch_iff (search : FuseSearch) (src tgt : List Record)
    (opts : ReconciliationOptions)
    (hnd : (opts.mappedFields.map Prod.fst).Nodup)
    (ce : CommonEntry) (hce : ce ∈ (performReconciliation search src tgt opts).common)
    (gf pf : String) (hmem : (gf, pf) ∈ opts.mappedFields)
    (hk : opts.keyFields.contains gf = false) :
    ((∃ m ∈ ce.mismatches,
        m.field = gf ∧ m.gstr2bValue = lookupField ce.gstr2b gf ∧
        m.purchaseRegisterValue = lookupField ce.purchaseRegister pf) ↔
      (match lookupField ce.gstr2b gf, lookupField ce.purchaseRegister pf with
       | some (.num a), some (.num b) => |a - b| > |a| * (1 / 1000)
       | gv, pv => valueToStr gv ≠ valueToStr pv)) ∧
    compareFlag (some (.num 100)) (some (.num (10009 / 100))) = false ∧
    compareFlag (some (.num 100)) (some (.num (10011 / 100))) = true ∧
    (∀ q : ℚ, q ≠ 0 → compareFlag (some (.num 0)) (some (.num q)) = true) := by
  refine ⟨?_, by decide, by decide, ?_⟩
  · rw [performReconciliation_common] at hce
    obtain ⟨e, _, rfl⟩ := List.mem_map.mp hce
    rw [← compareFlag_iff]
    exact computeMismatches_mem_iff opts e (bestMatchOf search tgt opts e) hnd gf pf hmem hk
  · intro q hq
    simp only [compareFlag, decide_eq_true_eq]
    rw [zero_sub, abs_neg, abs_zero, zero_mul]
    exact abs_pos.mpr hq

/-- Witness for `c4_tolerance_mismatch_iff` at the mismatch run, on the
mapped non-key field pair `a2 → b2` (source 100 vs target 100.11). -/
theorem c4_tolerance_mismatch_iff_witness :
    ((∃ m ∈ w4common.mismatches,
        m.field = "a2" ∧ m.gstr2bValue = lookupField w4common.gstr2b "a2" ∧
        m.purchaseRegisterValue = lookupField w4common.purchaseRegister "b2") ↔
      (match lookupField w4common.gstr2b "a2", lookupField w4common.purchaseRegister "b2" with
       | some (.num a), some (.num b) => |a - b| > |a| * (1 / 1000)
       | gv, pv => valueToStr gv ≠ valueToStr pv)) ∧
    compareFlag (some (.num 100)) (some (.num (10009 / 100))) = false ∧
    compareFlag (some (.num 100)) (some (.num (10011 / 100))) = true ∧
    (∀ q : ℚ, q ≠ 0 → compareFlag (some (.num 0)) (some (.num q)) = true) :=
  c4_tolerance_mismatch_iff modelFuseSearch [w4src] [w4tgt] w4opts (by decide)
    w4common (by decide) "a2" "b2" (by decide) (by decide)

/-- Witness for `c7_no_mismatch_on_key_fields` at the mismatch run: the
reported mismatch's field `a2` is not a key field. -/
theorem c7_no_mismatch_on_key_fields_witness :
    w4opts.keyFields.contains w4mismatch.field = false :=
  c7_no_mismatch_on_key_fields modelFuseSearch [w4src] [w4tgt] w4opts
    w4common (by decide) w4mismatch (by decide)

/-- C2 (code bug): the engine's Fuse keys are the untranslated
source-side key-field names — for the §8 scenario they are
`["invoice", "gstin"]`, although the mapping translates them to
`["inv_no", "gst"]` — and consequently the scenario's records, whose
key data sits under the target-side names, never match. -/
theorem c2_fuse_keys_untranslated_bug :
    fuseKeysOf scnOpts.keyFields = ["invoice", "gstin"] ∧
    scnOpts.keyFields.map (fun k => objLookup scnOpts.mappedFields k) =
      [some "inv_no", some "gst"] ∧
    fuseKeysOf scnOpts.keyFields ≠ ["inv_no", "gst"] ∧
    (performReconciliation modelFuseSearch [scnSrcRec] [scnTgtRec] scnOpts).common = [] := by
  decide

/-- C3 (code bug): the spec's end-to-end scenario run through the code:
instead of one fully-matched common pair, the engine produces no match at
all — the source row lands in `moreInGstr2b` and the target row in
`lessInGstr2b` — because the fuzzy index is keyed by the source-side
field names, which the target record does not carry. -/
theorem c3_end_to_end_scenario_bug :
    performReconciliation modelFuseSearch [scnSrcRec] [scnTgtRec] scnOpts =
      { common := [], moreInGstr2b := [scnSrcRec], lessInGstr2b := [scnTgtRec] } := by
  decide

/-- The per-header group loop equals the claim's first-successful-group
scan. -/
theorem findMappingForHeader_eq_findSome (groups : List KeywordGroup)
    (prHeaders : List String) (gstrHeader : String) :
    findMappingForHeader groups prHeaders gstrHeader =
      groups.findSome? (fun keywordSet =>
        if keywordSet.gstr.any (fun keyword =>
            strIncludes (strToLower gstrHeader) (strToLower keyword)) then
          prHeaders.find? (fun prHeader =>
            keywordSet.pr.any (fun keyword =>
              strIncludes (strToLower prHeader) (strToLower keyword)))
        else none) := by
  induction groups with
  | nil => rfl
  | cons keywordSet rest ih =>
    rw [findMappingForHeader, List.findSome?_cons]
    by_cases hg : keywordSet.gstr.any (fun keyword =>
        strIncludes (strToLower gstrHeader) (strToLower keyword)) = true
    · rw [if_pos hg, if_pos hg]
      cases hf : prHeaders.find? (fun prHeader =>
          keywordSet.pr.any (fun keyword =>
            strIncludes (strToLower prHeader) (strToLower keyword))) with
      | none => exact ih
      | some t => rfl
    · rw [if_neg hg, if_neg hg]
      exact ih

theorem objLookup_cons_hit (k' v' h : String) (t : List (String × String))
    (hh : (k' == h) = true) :
    objLookup ((k', v') :: t) h = some v' := by
  rw [objLookup, List.find?_cons_of_pos _ (by exact hh)]
  rfl

theorem objLookup_cons_miss (k' v' h : String) (t : List (String × String))
    (hh : (k' == h) = false) :
    objLookup ((k', v') :: t) h = objLookup t h := by
  rw [objLookup, objLookup, List.find?_cons_of_neg _ (by simp [hh])]

theorem objLookup_objInsert (m : List (String × String)) (k v h : String) :
    objLookup (objInsert m k v) h = if h = k then some v else objLookup m h := by
  induction m with
  | nil =>
    rw [objInsert]
    by_cases he : h = k
    · rw [if_pos he, he]
      exact objLookup_cons_hit k v k [] (by simp)
    · rw [if_neg he, objLookup_cons_miss k v h [] (beq_false_of_ne (fun hx => he hx.symm))]
  | cons q t ih =>
    obtain ⟨k', v'⟩ := q
    rw [show objInsert ((k', v') :: t) k v =
        if k' == k then (k, v) :: t else (k', v') :: objInsert t k v from rfl]
    by_cases hk' : k' = k
    · rw [if_pos (by simp [hk'])]
      by_cases he : h = k
      · rw [if_pos he, he]
        exact objLookup_cons_hit k v k t (by simp)
      · have h1 : (k == h) = false := beq_false_of_ne (fun hx => he hx.symm)
        have h2 : (k' == h) = false := beq_false_of_ne (by
          rw [hk']
          exact fun hx => he hx.symm)
        rw [if_neg he, objLookup_cons_miss k v h t h1, objLookup_cons_miss k' v' h t h2]
    · rw [if_neg (by simpa using hk')]
      by_cases he : h = k'
      · rw [if_neg (fun hx => hk' (by rw [← he]; exact hx)), he]
        rw [objLookup_cons_hit k' v' k' _ (by simp), objLookup_cons_hit k' v' k' t (by simp)]
      · have h4 : (k' == h) = false := beq_false_of_ne (fun hx => he hx.symm)
        rw [objLookup_cons_miss k' v' h _ h4, objLookup_cons_miss k' v' h t h4]
        exact ih

/-- The whole header fold, looked up at one header. -/
theorem suggest_foldl_lookup (prHeaders : List String) (hs : List String)
    (m : List (String × String)) (h : String) :
    objLookup (hs.foldl (fun mappings gstrHeader =>
        match findMappingForHeader commonKeywords prHeaders gstrHeader with
        | some matchingPrHeader => objInsert mappings gstrHeader matchingPrHeader
        | none => mappings) m) h =
      if h ∈ hs ∧ findMappingForHeader commonKeywords prHeaders h ≠ none
      then findMappingForHeader commonKeywords prHeaders h
      else objLookup m h := by
  induction hs generalizing m with
  | nil => simp
  | cons hd t ih =>
    rw [List.foldl_cons, ih]
    by_cases hc : h ∈ t ∧ findMappingForHeader commonKeywords prHeaders h ≠ none
    · rw [if_pos hc, if_pos ⟨List.mem_cons_of_mem hd hc.1, hc.2⟩]
    · rw [if_neg hc]
      cases hfd : findMappingForHeader commonKeywords prHeaders hd with
      | some v =>
        rw [objLookup_objInsert]
        by_cases he : h = hd
        · rw [if_pos he]
          have hfh : findMappingForHeader commonKeywords prHeaders h = some v := by
            rw [he, hfd]
          rw [if_pos ⟨he ▸ List.mem_cons_self hd t,
            by rw [hfh]; exact fun hx => Option.noConfusion hx⟩]
          rw [hfh]
        · rw [if_neg he]
          rw [if_neg (fun hx => hc ⟨(List.mem_cons.mp hx.1).resolve_left he, hx.2⟩)]
      | none =>
        by_cases he : h = hd
        · have hfh : findMappingForHeader commonKeywords prHeaders h = none := by
            rw [he, hfd]
          rw [if_neg (fun hx => hx.2 hfh)]
        · rw [if_neg (fun hx => hc ⟨(List.mem_cons.mp hx.1).resolve_left he, hx.2⟩)]

/-- C8: the suggested mapping contains, for each source header occurring
in the input, exactly the pair found by scanning the keyword groups in
declaration order and taking, at the first group whose source keywords
hit the header (case-insensitively, by substring containment) and for
which some target header carries one of the group's target keywords, the
first such target header; headers without such a pair are absent. -/
theorem c8_suggest_column_mappings_spec (gstr2bHeaders purchaseRegisterHeaders : List String)
    (h : String) :
    objLookup (suggestColumnMappings gstr2bHeaders purchaseRegisterHeaders) h =
      if h ∈ gstr2bHeaders then claimSuggestOne purchaseRegisterHeaders h
      else none := by
  rw [suggestColumnMappings, suggest_foldl_lookup]
  have hce : claimSuggestOne purchaseRegisterHeaders h =
      findMappingForHeader commonKeywords purchaseRegisterHeaders h :=
    (findMappingForHeader_eq_findSome commonKeywords purchaseRegisterHeaders h).symm
  by_cases hc : h ∈ gstr2bHeaders
  · rw [if_pos hc]
    by_cases hf : findMappingForHeader commonKeywords purchaseRegisterHeaders h = none
    · rw [if_neg (fun hx => hx.2 hf), hce, hf]
      rfl
    · rw [if_pos ⟨hc, hf⟩, hce]
  · rw [if_neg (fun hx => hc hx.1), if_neg hc]
    rfl

end RatReducible
